import Mathlib

set_option maxRecDepth 100000

/-!
Verification of the limit-order-book core of marketlearn (src/marketlearn/orderbook/lob.py)
against its specification.  The `Book` state and its operations are shallowly embedded:
the numpy arrays `bid_size`/`ask_size`, indexed through the boolean mask
`self.price == p` over `price = arange(-levels, levels + 1)`, become functions from the
integer tick to the resting quantity, and every fallible operation (a numpy reduction
over an empty selection, indexing an empty selection, or an access to an attribute the
class never defines) returns `Option`.
-/

namespace Lob

/-- State of `Book` (lob.py lines 20-26): `_levels` (source value 1000), and the two
quantity arrays, read at a price tick.  The `price` array is `arange(-levels, levels+1)`
and is represented by `ticks levels` below; `_depth` only feeds the initial arrays. -/
structure Book where
  levels : ℕ
  bid_size : ℤ → ℤ
  ask_size : ℤ → ℤ

/-- The `price` array `np.arange(-levels, levels + 1)` (lob.py line 24), as the ascending
list of ticks `-levels, …, levels`. -/
def ticks (levels : ℕ) : List ℤ :=
  (List.range (2 * levels + 1)).map (fun i : ℕ => (i : ℤ) - (levels : ℤ))

/-- A price is on the ladder when the mask `self.price == p` selects something, i.e. the
price occurs in the `price` array. -/
def in_ladder (b : Book) (p : ℤ) : Prop :=
  p ∈ ticks b.levels

instance (b : Book) (p : ℤ) : Decidable (in_ladder b p) :=
  inferInstanceAs (Decidable (p ∈ ticks b.levels))

/-- The buy-side array built at construction (lob.py lines 56-62):
`repeat(d, pl-8)` then the taper `[5,4,4,3,3,2,2,1]` (ticks -8..-1), then
`repeat(0, pl+1)` (ticks 0..pl). -/
def init_buy_orders (d : ℤ) (pl : ℕ) : List ℤ :=
  List.replicate (pl - 8) d ++ ([5, 4, 4, 3, 3, 2, 2, 1] ++ List.replicate (pl + 1) 0)

/-- The sell-side array built at construction (lob.py lines 59-64):
`repeat(0, pl)` (ticks -pl..-1), then `[0,1,2,2,3,3,4,4,5]` (ticks 0..8), then
`repeat(d, pl-8)` (ticks 9..pl). -/
def init_sell_orders (d : ℤ) (pl : ℕ) : List ℤ :=
  List.replicate pl 0 ++ ([0, 1, 2, 2, 3, 3, 4, 4, 5] ++ List.replicate (pl - 8) d)

/-- The freshly constructed book (lob.py lines 20-26): `levels = 1000`, `depth = 5`,
sizes read from the two arrays at index `t + levels`. -/
def init_book : Book where
  levels := 1000
  bid_size := fun t => (init_buy_orders 5 1000).getD (t + 1000).toNat 0
  ask_size := fun t => (init_sell_orders 5 1000).getD (t + 1000).toNat 0

/-- Attributes assigned on a `Book` instance by the constructor (lob.py lines 20-26).
`buy_size` and `sell_size`, read or written by `cancel_buy`, `cancel_sell`, `sfgk_model`
and `cst_model`, are not among them, so those accesses raise `AttributeError`. -/
def book_attrs : List String :=
  ["_levels", "_depth", "price", "bid_size", "ask_size", "events"]

/-- The method `best_ask` (lob.py line 75): `self.price[self.ask_size > 0].min()`, the
lowest tick with positive ask size; the numpy reduction over an empty selection raises,
modelled as `none`.  On the ascending tick list this is the first tick satisfying the
predicate. -/
def best_ask (b : Book) : Option ℤ :=
  (ticks b.levels).find? (fun t => decide (0 < b.ask_size t))

/-- The method `best_bid` (lob.py line 83): `self.price[self.bid_size > 0].max()`, the
highest tick with positive bid size; `none` when the selection is empty.  On the
reversed (descending) tick list this is the first tick satisfying the predicate. -/
def best_bid (b : Book) : Option ℤ :=
  (ticks b.levels).reverse.find? (fun t => decide (0 < b.bid_size t))

/-- The method `spread` (lob.py line 91): `best_ask() - best_bid()`; fails when either
side fails. -/
def spread (b : Book) : Option ℤ :=
  (best_ask b).bind (fun a => (best_bid b).map (fun p => a - p))

/-- The method `market_buy` (lob.py lines 102-112): reads `best_ask()` and stores
`ask_size[p] - qty` back at that tick; no clamping at zero. -/
def market_buy (b : Book) (qty : ℤ) : Option Book :=
  (best_ask b).map (fun p =>
    { b with ask_size := fun t => if t = p then b.ask_size p - qty else b.ask_size t })

/-- The method `market_sell` (lob.py lines 114-124): reads `best_bid()` and stores
`bid_size[p] - qty` back at that tick; no clamping at zero. -/
def market_sell (b : Book) (qty : ℤ) : Option Book :=
  (best_bid b).map (fun p =>
    { b with bid_size := fun t => if t = p then b.bid_size p - qty else b.bid_size t })

/-- The method `limit_buy` (lob.py lines 126-137): `bid_size[price] + qty` stored at
`price`; indexing `self.bid_size[self.price == price][0]` raises when the price is off
the ladder, modelled as `none`. -/
def limit_buy (b : Book) (price qty : ℤ) : Option Book :=
  if in_ladder b price then
    some { b with bid_size := fun t => if t = price then b.bid_size price + qty else b.bid_size t }
  else none

/-- The method `limit_sell` (lob.py lines 139-150): `ask_size[price] + qty` stored at
`price`; `none` off the ladder. -/
def limit_sell (b : Book) (price qty : ℤ) : Option Book :=
  if in_ladder b price then
    some { b with ask_size := fun t => if t = price then b.ask_size price + qty else b.ask_size t }
  else none

/-- The explicit-price branch of `cancel_buy` (lob.py lines 171-173): stores
`bid_size[price] - qty` back at `price`, silently and with no clamping at zero; `none`
off the ladder (the read `[0]` raises there). -/
def cancel_buy_at (b : Book) (price qty : ℤ) : Option Book :=
  if in_ladder b price then
    some { b with bid_size := fun t => if t = price then b.bid_size price - qty else b.bid_size t }
  else none

/-- The explicit-price branch of `cancel_sell` (lob.py lines 201-203): it reads
`self.ask_size[self.price == price][0] - qty` but then stores the result to
`self.sell_size`, an attribute the class never assigns (see `book_attrs`), so the store
raises `AttributeError` and no book state is produced; off the ladder the read raises
first.  Either way the call fails. -/
def cancel_sell_at (b : Book) (price qty : ℤ) : Option Book :=
  if in_ladder b price then none else none

/-- The six event weights of `sfgk_model` (lob.py lines 314-315):
`[0.5*mu, 0.5*mu, L*lamda, L*lamda, net_buys*theta, net_sells*theta]`. -/
def sfgk_weights (mu lamda theta L nb ns : ℚ) : List ℚ :=
  [0.5 * mu, 0.5 * mu, L * lamda, L * lamda, nb * theta, ns * theta]

/-- The normalizer of `sfgk_model` (lob.py line 313):
`cum_rate = mu + 2*L*lamda + net_buys*theta + net_sells*theta`. -/
def sfgk_cum_rate (mu lamda theta L nb ns : ℚ) : ℚ :=
  mu + 2 * L * lamda + nb * theta + ns * theta

/-- The event distribution of `sfgk_model` (lob.py line 316): the weights divided by
`cum_rate`.  `net_buys`/`net_sells` are parameters here because the expressions that were
meant to produce them (lines 307 and 310) read `self.buy_size`/`self.sell_size`,
attributes a `Book` never has (see `book_attrs`), so the method itself raises before
this vector is ever formed. -/
def sfgk_pevent (mu lamda theta L nb ns : ℚ) : List ℚ :=
  (sfgk_weights mu lamda theta L nb ns).map
    (fun w => w / sfgk_cum_rate mu lamda theta L nb ns)

/-- Distribution of one draw of `Book.choose` (lob.py lines 258-273) over
`arange(1, price_level + 1)`.  `np.random.choice(a, size=None, replace=True, p=None)`
draws by `p`, uniformly when `p is None`.  Line 271 (no `prob`) calls
`choice(arange, 1)`: uniform.  Line 273 calls `choice(arange, 1, prob)`, so `prob` is
passed positionally as `replace`, not as `p`: numpy takes the truth value of `replace`
(which raises `ValueError` for an array whose length is not 1) and still draws with
`p=None`, i.e. uniformly; the supplied weights never influence the draw. -/
def choose_dist (price_level : ℕ) (prob : Option (List ℚ)) : Option (List ℚ) :=
  match prob with
  | none => some (List.replicate price_level ((1 : ℚ) / price_level))
  | some w =>
    if w.length = 1 then some (List.replicate price_level ((1 : ℚ) / price_level))
    else none

/-- Elementwise sum of two numpy vectors. -/
def vec_add (xs ys : List ℚ) : List ℚ :=
  List.zipWith (fun x y => x + y) xs ys

/-- A numpy vector divided elementwise by a scalar. -/
def vec_div (xs : List ℚ) (c : ℚ) : List ℚ :=
  xs.map (fun x => x / c)

/-- The accumulation loop shared verbatim by `sfgk_simulate` (lob.py lines 370-372) and
`cst_simulate` (lines 438-440): `k` times, fire one more event and add
`book_shape(L) / max_events` to the running average.  The event generator `step` and the
observation `shape` (the code's `sfgk_model`/`cst_model` and `book_shape(L)`) are
parameters: their own behaviour is analysed separately. -/
def run_avg {S : Type} (step : S → S) (shape : S → List ℚ) (N : ℚ) :
    ℕ → S → List ℚ → List ℚ
  | 0, _, acc => acc
  | k + 1, b, acc =>
    let b2 := step b
    run_avg step shape N k b2 (vec_add acc (vec_div (shape b2) N))

/-- The driver `sfgk_simulate` (lob.py lines 362-374): 1000 burn-in events, then
`avg = book_shape(L) / max_events`, then the loop `for _ in range(1, max_events)` —
`max_events - 1` further events, accumulating after each. -/
def sfgk_simulate {S : Type} (step : S → S) (shape : S → List ℚ) (max_events : ℕ)
    (b : S) : List ℚ :=
  let b1 := step^[1000] b
  run_avg step shape (max_events : ℚ) (max_events - 1) b1 (vec_div (shape b1) (max_events : ℚ))

/-- The symmetrization of `cst_simulate` (lob.py lines 441-442):
`ans = (avg[:L][::-1] + avg[L+1:]) * 0.5` prefixed with the untouched `avg[L]`. -/
def symmetrize (L : ℕ) (avg : List ℚ) : List ℚ :=
  avg.getD L 0 :: List.zipWith (fun x y => (x + y) * 0.5) (avg.take L).reverse (avg.drop (L + 1))

/-- The driver `cst_simulate` (lob.py lines 430-443): burn-in and averaging loop
identical to `sfgk_simulate` (lines 432-440 repeat lines 362-372 verbatim), then the
symmetrization of lines 441-442. -/
def cst_simulate {S : Type} (step : S → S) (shape : S → List ℚ) (numEvents L : ℕ)
    (b : S) : List ℚ :=
  symmetrize L (sfgk_simulate step shape numEvents b)

/-- The averaging loop as the claim words it, for comparison with `sfgk_simulate`:
after the 1000 burn-in events, `max_events` further events are executed and the shape is
sampled after each of them, so entry `j` of the average is the mean of the samples taken
after events 1001 .. 1000+max_events. -/
def sfgk_simulate_claim {S : Type} (step : S → S) (shape : S → List ℚ) (max_events : ℕ)
    (b : S) (j : ℕ) : ℚ :=
  ((List.range max_events).map
    (fun i => (shape (step^[1000 + (i + 1)] b)).getD j 0)).sum / max_events

/-- One event of the two agent-based models (`sfgk_model`, lob.py lines 319-337, and
`cst_model`, lines 405-428), as a transition relation on books.  Both models read
`best_ask()` and `best_bid()` up front, so both sides must be non-empty.  The six
branches: a unit market buy at the best ask; a unit market sell at the best bid; a unit
limit buy at `best_ask - q` with `1 ≤ q ≤ L` (lines 326-328 and 410-413); a unit limit
sell at `best_bid + q` (lines 331-333 and 415-418); a unit cancel of a resting buy at a
tick holding at least one buy within `L` of the best ask (a zero-probability tick is
never drawn: lines 334-335 pick among the `net_buys` resting units, lines 420-423 weight
by `thetas * cb`); symmetrically a cancel of a resting sell.  The cancel-sell successor
is written out directly: it is the decrement the models request, although the reference
`cancel_sell` itself dies on the undefined `sell_size` attribute — the relation
over-approximates everything the reference run could reach. -/
inductive Step (L : ℕ) : Book → Book → Prop
  | market_buy_step (b b2 : Book) (ha : (best_ask b).isSome) (hb : (best_bid b).isSome)
      (h : market_buy b 1 = some b2) : Step L b b2
  | market_sell_step (b b2 : Book) (ha : (best_ask b).isSome) (hb : (best_bid b).isSome)
      (h : market_sell b 1 = some b2) : Step L b b2
  | limit_buy_step (b b2 : Book) (a q : ℤ) (ha : best_ask b = some a)
      (hb : (best_bid b).isSome) (hq1 : 1 ≤ q) (hqL : q ≤ (L : ℤ))
      (h : limit_buy b (a - q) 1 = some b2) : Step L b b2
  | limit_sell_step (b b2 : Book) (p q : ℤ) (hp : best_bid b = some p)
      (ha : (best_ask b).isSome) (hq1 : 1 ≤ q) (hqL : q ≤ (L : ℤ))
      (h : limit_sell b (p + q) 1 = some b2) : Step L b b2
  | cancel_buy_step (b b2 : Book) (a pc : ℤ) (ha : best_ask b = some a)
      (hb : (best_bid b).isSome) (hw : a - (L : ℤ) ≤ pc) (hpos : 0 < b.bid_size pc)
      (h : cancel_buy_at b pc 1 = some b2) : Step L b b2
  | cancel_sell_step (b b2 : Book) (p pc : ℤ) (hp : best_bid b = some p)
      (ha : (best_ask b).isSome) (hw : pc ≤ p + (L : ℤ)) (hpos : 0 < b.ask_size pc)
      (h : b2 = { b with
        ask_size := fun t => if t = pc then b.ask_size pc - 1 else b.ask_size t }) :
      Step L b b2

/-- Book states reachable from the freshly constructed book by the event models. -/
def Reachable (L : ℕ) (b : Book) : Prop :=
  Relation.ReflTransGen (Step L) init_book b

/-- The book does not cross: every on-ladder tick holding resting buys lies strictly
below every on-ladder tick holding resting sells. -/
def no_cross (b : Book) : Prop :=
  ∀ tb ta, tb ∈ ticks b.levels → ta ∈ ticks b.levels →
    0 < b.bid_size tb → 0 < b.ask_size ta → tb < ta

/-- A small two-sided book used to instantiate universally quantified theorems. -/
def wbook : Book where
  levels := 1
  bid_size := fun t => if t = -1 then 1 else 0
  ask_size := fun t => if t = 1 then 2 else 0

/-- A book with no resting orders on either side. -/
def ebook : Book where
  levels := 1
  bid_size := fun _ => 0
  ask_size := fun _ => 0

theorem init_book_levels : init_book.levels = 1000 := rfl

theorem mem_ticks (L : ℕ) (t : ℤ) : t ∈ ticks L ↔ -(L : ℤ) ≤ t ∧ t ≤ (L : ℤ) := by
  unfold ticks
  rw [List.mem_map]
  constructor
  · rintro ⟨i, hi, rfl⟩
    rw [List.mem_range] at hi
    show -(L : ℤ) ≤ (i : ℤ) - L ∧ (i : ℤ) - L ≤ L
    omega
  · intro h
    refine ⟨(t + L).toNat, ?_, ?_⟩
    · rw [List.mem_range]
      omega
    · show ((t + (L : ℤ)).toNat : ℤ) - L = t
      omega

theorem ticks_pairwise (L : ℕ) : (ticks L).Pairwise (fun a b => a < b) := by
  unfold ticks
  rw [List.pairwise_map]
  refine (List.pairwise_lt_range _).imp ?_
  intro a b h
  show (a : ℤ) - L < (b : ℤ) - L
  omega

theorem ticks_reverse_pairwise (L : ℕ) :
    (ticks L).reverse.Pairwise (fun a b => b < a) :=
  List.pairwise_reverse.mpr (ticks_pairwise L)

theorem find?_min_le (q : ℤ → Bool) :
    ∀ (l : List ℤ), l.Pairwise (fun a b => a < b) → ∀ (a : ℤ), l.find? q = some a →
      ∀ t ∈ l, q t = true → a ≤ t := by
  intro l
  induction l with
  | nil => intro _ a h; simp at h
  | cons x xs ih =>
    intro hp a hfind t ht hq
    rcases List.pairwise_cons.mp hp with ⟨hx, hxs⟩
    by_cases hqx : q x = true
    · rw [List.find?_cons_of_pos _ hqx] at hfind
      injection hfind with hxa
      subst hxa
      rcases List.mem_cons.mp ht with rfl | htl
      · exact le_refl _
      · exact le_of_lt (hx _ htl)
    · rw [List.find?_cons_of_neg _ hqx] at hfind
      rcases List.mem_cons.mp ht with rfl | htl
      · exact absurd hq hqx
      · exact ih hxs a hfind t htl hq

theorem find?_eq_some_min (q : ℤ → Bool) :
    ∀ (l : List ℤ), l.Pairwise (fun a b => a < b) → ∀ (a : ℤ), a ∈ l → q a = true →
      (∀ t ∈ l, q t = true → a ≤ t) → l.find? q = some a := by
  intro l
  induction l with
  | nil => intro _ a ha; simp at ha
  | cons x xs ih =>
    intro hp a ha hqa hmin
    rcases List.pairwise_cons.mp hp with ⟨hx, hxs⟩
    rcases List.mem_cons.mp ha with rfl | hatl
    · exact List.find?_cons_of_pos _ hqa
    · have hax : x < a := hx _ hatl
      have hqx : ¬ q x = true := by
        intro hqx
        have := hmin x (List.mem_cons_self x xs) hqx
        omega
      rw [List.find?_cons_of_neg _ hqx]
      exact ih hxs a hatl hqa (fun t ht hqt => hmin t (List.mem_cons_of_mem _ ht) hqt)

theorem find?_max_ge (q : ℤ → Bool) :
    ∀ (l : List ℤ), l.Pairwise (fun a b => b < a) → ∀ (a : ℤ), l.find? q = some a →
      ∀ t ∈ l, q t = true → t ≤ a := by
  intro l
  induction l with
  | nil => intro _ a h; simp at h
  | cons x xs ih =>
    intro hp a hfind t ht hq
    rcases List.pairwise_cons.mp hp with ⟨hx, hxs⟩
    by_cases hqx : q x = true
    · rw [List.find?_cons_of_pos _ hqx] at hfind
      injection hfind with hxa
      subst hxa
      rcases List.mem_cons.mp ht with rfl | htl
      · exact le_refl _
      · exact le_of_lt (hx _ htl)
    · rw [List.find?_cons_of_neg _ hqx] at hfind
      rcases List.mem_cons.mp ht with rfl | htl
      · exact absurd hq hqx
      · exact ih hxs a hfind t htl hq

theorem find?_eq_some_max (q : ℤ → Bool) :
    ∀ (l : List ℤ), l.Pairwise (fun a b => b < a) → ∀ (a : ℤ), a ∈ l → q a = true →
      (∀ t ∈ l, q t = true → t ≤ a) → l.find? q = some a := by
  intro l
  induction l with
  | nil => intro _ a ha; simp at ha
  | cons x xs ih =>
    intro hp a ha hqa hmax
    rcases List.pairwise_cons.mp hp with ⟨hx, hxs⟩
    rcases List.mem_cons.mp ha with rfl | hatl
    · exact List.find?_cons_of_pos _ hqa
    · have hax : a < x := hx _ hatl
      have hqx : ¬ q x = true := by
        intro hqx
        have := hmax x (List.mem_cons_self x xs) hqx
        omega
      rw [List.find?_cons_of_neg _ hqx]
      exact ih hxs a hatl hqa (fun t ht hqt => hmax t (List.mem_cons_of_mem _ ht) hqt)

theorem getD_replicate_of_lt {α : Type} (a d : α) :
    ∀ (k n : ℕ), n < k → (List.replicate k a).getD n d = a := by
  intro k
  induction k with
  | zero => intro n h; omega
  | succ k ih =>
    intro n h
    cases n with
    | zero => rfl
    | succ n => exact ih n (by omega)

theorem init_bid_char (t : ℤ) (h1 : -1000 ≤ t) (h2 : t ≤ 1000) :
    init_book.bid_size t =
      if t < -8 then 5
      else if t ≤ -1 then ([5, 4, 4, 3, 3, 2, 2, 1] : List ℤ).getD (t + 8).toNat 0
      else 0 := by
  show (init_buy_orders 5 1000).getD (t + 1000).toNat 0 = _
  unfold init_buy_orders
  by_cases hc1 : t < -8
  · rw [List.getD_append _ _ _ _ (by rw [List.length_replicate]; omega)]
    rw [if_pos hc1]
    exact getD_replicate_of_lt _ _ _ _ (by omega)
  · rw [List.getD_append_right _ _ _ _ (by rw [List.length_replicate]; omega)]
    rw [List.length_replicate]
    by_cases hc2 : t ≤ -1
    · rw [List.getD_append _ _ _ _ (by simp only [List.length_cons, List.length_nil]; omega)]
      rw [if_neg hc1, if_pos hc2]
      have hidx : (t + 1000).toNat - (1000 - 8) = (t + 8).toNat := by omega
      rw [hidx]
    · rw [List.getD_append_right _ _ _ _
        (by simp only [List.length_cons, List.length_nil]; omega)]
      rw [if_neg hc1, if_neg hc2]
      simp only [List.length_cons, List.length_nil]
      exact getD_replicate_of_lt _ _ _ _ (by omega)

theorem init_ask_char (t : ℤ) (h1 : -1000 ≤ t) (h2 : t ≤ 1000) :
    init_book.ask_size t =
      if t < 0 then 0
      else if t ≤ 8 then ([0, 1, 2, 2, 3, 3, 4, 4, 5] : List ℤ).getD t.toNat 0
      else 5 := by
  show (init_sell_orders 5 1000).getD (t + 1000).toNat 0 = _
  unfold init_sell_orders
  by_cases hc1 : t < 0
  · rw [List.getD_append _ _ _ _ (by rw [List.length_replicate]; omega)]
    rw [if_pos hc1]
    exact getD_replicate_of_lt _ _ _ _ (by omega)
  · rw [List.getD_append_right _ _ _ _ (by rw [List.length_replicate]; omega)]
    rw [List.length_replicate]
    by_cases hc2 : t ≤ 8
    · rw [List.getD_append _ _ _ _ (by simp only [List.length_cons, List.length_nil]; omega)]
      rw [if_neg hc1, if_pos hc2]
      have hidx : (t + 1000).toNat - 1000 = t.toNat := by omega
      rw [hidx]
    · rw [List.getD_append_right _ _ _ _
        (by simp only [List.length_cons, List.length_nil]; omega)]
      rw [if_neg hc1, if_neg hc2]
      simp only [List.length_cons, List.length_nil]
      exact getD_replicate_of_lt _ _ _ _ (by omega)

theorem init_ask_zero_of_nonpos (t : ℤ) (h1 : -1000 ≤ t) (h2 : t ≤ 0) :
    init_book.ask_size t = 0 := by
  rw [init_ask_char t h1 (by omega)]
  by_cases hc : t < 0
  · rw [if_pos hc]
  · have ht0 : t = 0 := by omega
    subst ht0
    norm_num

theorem init_bid_zero_of_nonneg (t : ℤ) (h1 : 0 ≤ t) (h2 : t ≤ 1000) :
    init_book.bid_size t = 0 := by
  rw [init_bid_char t (by omega) h2, if_neg (by omega), if_neg (by omega)]

theorem init_ask_one : init_book.ask_size 1 = 1 := by
  rw [init_ask_char 1 (by norm_num) (by norm_num)]
  norm_num

theorem init_bid_neg_one : init_book.bid_size (-1) = 1 := by
  rw [init_bid_char (-1) (by norm_num) (by norm_num)]
  decide

theorem best_ask_init : best_ask init_book = some 1 := by
  unfold best_ask
  rw [init_book_levels]
  refine find?_eq_some_min _ _ (ticks_pairwise 1000) _ ?_ ?_ ?_
  · rw [mem_ticks]
    norm_num
  · simp only [decide_eq_true_eq, init_ask_one]
    norm_num
  · intro t ht hq
    rw [mem_ticks] at ht
    simp only [decide_eq_true_eq] at hq
    by_contra hlt
    push_neg at hlt
    have h0 : init_book.ask_size t = 0 := init_ask_zero_of_nonpos t ht.1 (by omega)
    omega

theorem best_bid_init : best_bid init_book = some (-1) := by
  unfold best_bid
  rw [init_book_levels]
  refine find?_eq_some_max _ _ (ticks_reverse_pairwise 1000) _ ?_ ?_ ?_
  · rw [List.mem_reverse, mem_ticks]
    norm_num
  · simp only [decide_eq_true_eq, init_bid_neg_one]
    norm_num
  · intro t ht hq
    rw [List.mem_reverse, mem_ticks] at ht
    simp only [decide_eq_true_eq] at hq
    by_contra hlt
    push_neg at hlt
    have h0 : init_book.bid_size t = 0 := init_bid_zero_of_nonneg t (by omega) ht.2
    omega

theorem spread_init : spread init_book = some 2 := by
  unfold spread
  rw [best_ask_init, best_bid_init]
  rfl

/-- C4: the freshly constructed book with `levels = 1000` and `depth = 5` has an empty
ask side below tick 0 and an empty bid side at and above tick 0; `ask_size[0] = 0`,
`ask_size[1] = 1`, `ask_size[8] = 5`, `bid_size[-1] = 1`, `bid_size[-8] = 5`; and both
sides sit at the constant depth 5 at every tick of their own side more than 8 ticks
away from 0. -/
theorem c4_initial_configuration :
    (∀ t, -1000 ≤ t → t < 0 → init_book.ask_size t = 0)
  ∧ (∀ t, 0 ≤ t → t ≤ 1000 → init_book.bid_size t = 0)
  ∧ init_book.ask_size 0 = 0
  ∧ init_book.ask_size 1 = 1
  ∧ init_book.ask_size 8 = 5
  ∧ init_book.bid_size (-1) = 1
  ∧ init_book.bid_size (-8) = 5
  ∧ (∀ t, 8 < t → t ≤ 1000 → init_book.ask_size t = 5)
  ∧ (∀ t, -1000 ≤ t → t < -8 → init_book.bid_size t = 5) := by
  refine ⟨?_, ?_, ?_, ?_, ?_, ?_, ?_, ?_, ?_⟩
  · intro t h1 h2
    exact init_ask_zero_of_nonpos t h1 (by omega)
  · intro t h1 h2
    exact init_bid_zero_of_nonneg t h1 h2
  · exact init_ask_zero_of_nonpos 0 (by norm_num) (by norm_num)
  · exact init_ask_one
  · rw [init_ask_char 8 (by norm_num) (by norm_num)]
    decide
  · exact init_bid_neg_one
  · rw [init_bid_char (-8) (by norm_num) (by norm_num)]
    decide
  · intro t h1 h2
    rw [init_ask_char t (by omega) h2, if_neg (by omega), if_neg (by omega)]
  · intro t h1 h2
    rw [init_bid_char t h1 (by omega), if_pos h2]

/-- Witness for C4: the universally quantified clauses instantiated at sample ticks. -/
theorem c4_witness :
    init_book.ask_size (-3) = 0 ∧ init_book.bid_size 7 = 0
  ∧ init_book.ask_size 9 = 5 ∧ init_book.bid_size (-9) = 5 :=
  ⟨c4_initial_configuration.1 (-3) (by norm_num) (by norm_num),
   c4_initial_configuration.2.1 7 (by norm_num) (by norm_num),
   c4_initial_configuration.2.2.2.2.2.2.2.1 9 (by norm_num) (by norm_num),
   c4_initial_configuration.2.2.2.2.2.2.2.2 (-9) (by norm_num) (by norm_num)⟩

/-- C1, on the code as written: the decrementing operations do not clamp at zero and do
not report an error.  `cancel_buy(price=0, qty=1)` on the freshly constructed book
(whose `bid_size[0]` is 0) silently succeeds and leaves `bid_size[0] = -1`, a negative
ladder cell. -/
theorem c1_unclamped_cancel :
    (cancel_buy_at init_book 0 1).map (fun b => b.bid_size 0) = some (-1) := by
  have hin : in_ladder init_book 0 := by
    show (0 : ℤ) ∈ ticks init_book.levels
    rw [init_book_levels, mem_ticks]
    norm_num
  have h0 : init_book.bid_size 0 = 0 :=
    init_bid_zero_of_nonneg 0 (by norm_num) (by norm_num)
  unfold cancel_buy_at
  rw [if_pos hin]
  simp [h0]

/-- C5: `limit_buy(p, q)` immediately followed by `cancel_buy(price=p, qty=q)` restores
the whole book — in particular `bid_size[p]` regains its prior value and every other
cell is untouched.  (Because neither operation clamps, the `+q` and `-q` cancel
exactly.) -/
theorem c5_round_trip (b : Book) (p q : ℤ) (h : in_ladder b p) :
    (limit_buy b p q).bind (fun b2 => cancel_buy_at b2 p q) = some b := by
  unfold limit_buy cancel_buy_at
  rw [if_pos h]
  simp only [Option.some_bind]
  split
  case isFalse hc => exact absurd h hc
  rcases b with ⟨lv, bs, as⟩
  simp only [Option.some.injEq]
  congr 1
  funext t
  by_cases ht : t = p
  · subst ht
    simp
  · simp [ht]

/-- Witness for C5 at the freshly constructed book, price -1, quantity 2. -/
theorem c5_witness :
    (limit_buy init_book (-1) 2).bind (fun b2 => cancel_buy_at b2 (-1) 2)
      = some init_book :=
  c5_round_trip init_book (-1) 2 (by decide)

/-- C8, on the code as written: `cancel_sell` with an explicit price never decrements
`ask_size` — its store targets `self.sell_size`, an attribute absent from the ones the
constructor assigns, so the call raises `AttributeError` (modelled `none`) and the cell
that should have gone from 1 to 0 is untouched. -/
theorem c8_cancel_sell_dies :
    cancel_sell_at init_book 1 1 = none ∧ init_book.ask_size 1 = 1
  ∧ "sell_size" ∉ book_attrs := by
  refine ⟨?_, init_ask_one, by decide⟩
  unfold cancel_sell_at
  split <;> rfl

/-- C10: `limit_buy(p, q)` touches only the single `bid_size` cell at `p`, leaving every
other bid cell, the whole ask array and the ladder (its `levels`, hence the `price`
array) unchanged, and symmetrically `limit_sell(p, q)` touches only `ask_size[p]`. -/
theorem c10_limit_orders_frame (b : Book) (p q : ℤ) (h : in_ladder b p) :
    (∃ b2, limit_buy b p q = some b2 ∧ b2.bid_size p = b.bid_size p + q
      ∧ (∀ t, t ≠ p → b2.bid_size t = b.bid_size t)
      ∧ b2.ask_size = b.ask_size ∧ b2.levels = b.levels)
  ∧ (∃ b2, limit_sell b p q = some b2 ∧ b2.ask_size p = b.ask_size p + q
      ∧ (∀ t, t ≠ p → b2.ask_size t = b.ask_size t)
      ∧ b2.bid_size = b.bid_size ∧ b2.levels = b.levels) := by
  constructor
  · refine ⟨{ b with bid_size := fun t => if t = p then b.bid_size p + q else b.bid_size t },
      ?_, ?_, ?_, rfl, rfl⟩
    · unfold limit_buy
      rw [if_pos h]
    · simp
    · intro t ht
      simp [ht]
  · refine ⟨{ b with ask_size := fun t => if t = p then b.ask_size p + q else b.ask_size t },
      ?_, ?_, ?_, rfl, rfl⟩
    · unfold limit_sell
      rw [if_pos h]
    · simp
    · intro t ht
      simp [ht]

/-- Witness for C10 at the freshly constructed book, price -1, quantity 1. -/
theorem c10_witness :
    (∃ b2, limit_buy init_book (-1) 1 = some b2
      ∧ b2.bid_size (-1) = init_book.bid_size (-1) + 1
      ∧ (∀ t, t ≠ -1 → b2.bid_size t = init_book.bid_size t)
      ∧ b2.ask_size = init_book.ask_size ∧ b2.levels = init_book.levels)
  ∧ (∃ b2, limit_sell init_book (-1) 1 = some b2
      ∧ b2.ask_size (-1) = init_book.ask_size (-1) + 1
      ∧ (∀ t, t ≠ -1 → b2.ask_size t = init_book.ask_size t)
      ∧ b2.bid_size = init_book.bid_size ∧ b2.levels = init_book.levels) :=
  c10_limit_orders_frame init_book (-1) 1 (by decide)

/-- C3: when `best_ask` answers it answers the lowest on-ladder tick with positive ask
size and when `best_bid` answers it answers the highest on-ladder tick with positive bid
size; each fails (the empty numpy reduction raises, modelled `none`) when no such tick
exists; and `market_buy` fails whenever `best_ask` fails, in particular on an empty ask
side. -/
theorem c3_best_quotes (b : Book) (a p : ℤ) :
    (best_ask b = some a →
      a ∈ ticks b.levels ∧ 0 < b.ask_size a
        ∧ ∀ t ∈ ticks b.levels, 0 < b.ask_size t → a ≤ t)
  ∧ ((∀ t ∈ ticks b.levels, ¬ 0 < b.ask_size t) → best_ask b = none)
  ∧ (best_bid b = some p →
      p ∈ ticks b.levels ∧ 0 < b.bid_size p
        ∧ ∀ t ∈ ticks b.levels, 0 < b.bid_size t → t ≤ p)
  ∧ ((∀ t ∈ ticks b.levels, ¬ 0 < b.bid_size t) → best_bid b = none)
  ∧ (best_ask b = none → market_buy b 1 = none) := by
  refine ⟨?_, ?_, ?_, ?_, ?_⟩
  · intro h
    unfold best_ask at h
    refine ⟨List.mem_of_find?_eq_some h, ?_, ?_⟩
    · have hq := List.find?_some h
      simpa using hq
    · intro t ht hpos
      exact find?_min_le _ _ (ticks_pairwise b.levels) _ h t ht (by simpa using hpos)
  · intro h
    unfold best_ask
    rw [List.find?_eq_none]
    intro t ht
    simp only [decide_eq_true_eq]
    exact h t ht
  · intro h
    unfold best_bid at h
    refine ⟨List.mem_reverse.mp (List.mem_of_find?_eq_some h), ?_, ?_⟩
    · have hq := List.find?_some h
      simpa using hq
    · intro t ht hpos
      exact find?_max_ge _ _ (ticks_reverse_pairwise b.levels) _ h t
        (List.mem_reverse.mpr ht) (by simpa using hpos)
  · intro h
    unfold best_bid
    rw [List.find?_eq_none]
    intro t ht
    simp only [decide_eq_true_eq]
    exact h t (List.mem_reverse.mp ht)
  · intro h
    unfold market_buy
    rw [h]
    rfl

/-- Witness for C3: a two-sided book where both quotes answer, and an empty book where
both quotes and `market_buy` fail. -/
theorem c3_witness :
    ((1 : ℤ) ∈ ticks wbook.levels ∧ 0 < wbook.ask_size 1
      ∧ ∀ t ∈ ticks wbook.levels, 0 < wbook.ask_size t → 1 ≤ t)
  ∧ best_ask ebook = none
  ∧ ((-1 : ℤ) ∈ ticks wbook.levels ∧ 0 < wbook.bid_size (-1)
      ∧ ∀ t ∈ ticks wbook.levels, 0 < wbook.bid_size t → t ≤ -1)
  ∧ best_bid ebook = none
  ∧ market_buy ebook 1 = none :=
  ⟨(c3_best_quotes wbook 1 (-1)).1 (by decide),
   (c3_best_quotes ebook 1 (-1)).2.1 (by decide),
   (c3_best_quotes wbook 1 (-1)).2.2.1 (by decide),
   (c3_best_quotes ebook 1 (-1)).2.2.2.1 (by decide),
   (c3_best_quotes ebook 1 (-1)).2.2.2.2 (by decide)⟩

/-- C2, on the probability vector of `sfgk_model` (lob.py lines 313-316): the six event
probabilities are exactly the weights `{0.5 mu, 0.5 mu, L lamda, L lamda, nb theta,
ns theta}` divided by their sum (the code's `cum_rate` equals that sum), and with
`mu = lamda = 0`, `theta > 0` and nonnegative resting quantities not both zero the whole
mass sits on the two cancel events.  The second conjunct records why the method itself
never reaches this vector: the `net_buys`/`net_sells` reads target `buy_size`/`sell_size`,
attributes the constructor never assigns. -/
theorem c2_sfgk_event_probabilities (mu lamda theta L nb ns : ℚ) :
    sfgk_pevent mu lamda theta L nb ns =
      (sfgk_weights mu lamda theta L nb ns).map
        (fun w => w / (sfgk_weights mu lamda theta L nb ns).sum)
  ∧ ("buy_size" ∉ book_attrs ∧ "sell_size" ∉ book_attrs)
  ∧ (mu = 0 → lamda = 0 → 0 < theta → 0 ≤ nb → 0 ≤ ns → 0 < nb + ns →
      (sfgk_pevent mu lamda theta L nb ns).getD 0 0 = 0
    ∧ (sfgk_pevent mu lamda theta L nb ns).getD 1 0 = 0
    ∧ (sfgk_pevent mu lamda theta L nb ns).getD 2 0 = 0
    ∧ (sfgk_pevent mu lamda theta L nb ns).getD 3 0 = 0
    ∧ (sfgk_pevent mu lamda theta L nb ns).getD 4 0
        + (sfgk_pevent mu lamda theta L nb ns).getD 5 0 = 1) := by
  have hsum : (sfgk_weights mu lamda theta L nb ns).sum
      = sfgk_cum_rate mu lamda theta L nb ns := by
    unfold sfgk_weights sfgk_cum_rate
    simp only [List.sum_cons, List.sum_nil]
    ring
  refine ⟨?_, ⟨by decide, by decide⟩, ?_⟩
  · rw [hsum]
    rfl
  · intro hmu hlam hth hnb hns hpos
    subst hmu hlam
    have hden : sfgk_cum_rate 0 0 theta L nb ns = theta * (nb + ns) := by
      unfold sfgk_cum_rate
      ring
    have hden0 : sfgk_cum_rate 0 0 theta L nb ns ≠ 0 := by
      rw [hden]
      exact ne_of_gt (mul_pos hth hpos)
    refine ⟨?_, ?_, ?_, ?_, ?_⟩
    · simp [sfgk_pevent, sfgk_weights]
    · simp [sfgk_pevent, sfgk_weights]
    · simp [sfgk_pevent, sfgk_weights]
    · simp [sfgk_pevent, sfgk_weights]
    · show nb * theta / sfgk_cum_rate 0 0 theta L nb ns
        + ns * theta / sfgk_cum_rate 0 0 theta L nb ns = 1
      rw [div_add_div_same, hden]
      rw [show nb * theta + ns * theta = theta * (nb + ns) by ring]
      exact div_self (ne_of_gt (mul_pos hth hpos))

/-- Witness for C2: with `mu = lamda = 0`, `theta = 1`, one resting unit each side, all
probability mass is on the cancels. -/
theorem c2_witness :
    (sfgk_pevent 0 0 1 20 1 1).getD 4 0 + (sfgk_pevent 0 0 1 20 1 1).getD 5 0 = 1
  ∧ (sfgk_pevent 0 0 1 20 1 1).getD 0 0 = 0 :=
  ⟨((c2_sfgk_event_probabilities 0 0 1 20 1 1).2.2 rfl rfl (by norm_num) (by norm_num)
      (by norm_num) (by norm_num)).2.2.2.2,
   ((c2_sfgk_event_probabilities 0 0 1 20 1 1).2.2 rfl rfl (by norm_num) (by norm_num)
      (by norm_num) (by norm_num)).1⟩

/-- C6, on the code as written: the weights handed to `choose` never reach the random
draw.  `np.random.choice(arange, 1, prob)` passes `prob` positionally as `replace`, so
whenever the call survives (weight vector of length 1, whose truth value numpy accepts)
the draw is the same uniform draw as with no weights at all, and for any weight vector
of other length the truthiness test raises `ValueError` (modelled `none`) — as
`cst_model` triggers with its length-`L` vectors for `L ≥ 2`. -/
theorem c6_choose_ignores_prob (L : ℕ) (w : List ℚ) :
    (w.length = 1 → choose_dist L (some w) = choose_dist L none)
  ∧ (w.length ≠ 1 → choose_dist L (some w) = none) := by
  constructor
  · intro h
    show (if w.length = 1 then some (List.replicate L ((1 : ℚ) / L)) else none)
      = some (List.replicate L ((1 : ℚ) / L))
    rw [if_pos h]
  · intro h
    show (if w.length = 1 then some (List.replicate L ((1 : ℚ) / L)) else none) = none
    rw [if_neg h]

/-- Witness for C6: the two-tick weight vector `[1/3, 2/3]` kills the draw; a length-one
vector leaves the uniform draw untouched. -/
theorem c6_witness :
    choose_dist 2 (some [1/3, 2/3]) = none
  ∧ choose_dist 5 (some [1]) = choose_dist 5 none :=
  ⟨(c6_choose_ignores_prob 2 [1/3, 2/3]).2 (by decide),
   (c6_choose_ignores_prob 5 [1]).1 (by decide)⟩

theorem vec_add_length (xs ys : List ℚ) :
    (vec_add xs ys).length = min xs.length ys.length :=
  List.length_zipWith _ _ _

theorem vec_div_length (xs : List ℚ) (c : ℚ) : (vec_div xs c).length = xs.length :=
  List.length_map _ _

theorem vec_add_getD (xs ys : List ℚ) (j : ℕ) (hx : j < xs.length) (hy : j < ys.length) :
    (vec_add xs ys).getD j 0 = xs.getD j 0 + ys.getD j 0 := by
  unfold vec_add
  rw [List.getD_eq_getElem _ _ (by rw [List.length_zipWith]; omega),
    List.getD_eq_getElem _ _ hx, List.getD_eq_getElem _ _ hy, List.getElem_zipWith]

theorem vec_div_getD (xs : List ℚ) (c : ℚ) (j : ℕ) (h : j < xs.length) :
    (vec_div xs c).getD j 0 = xs.getD j 0 / c := by
  unfold vec_div
  rw [List.getD_eq_getElem _ _ (by rw [List.length_map]; omega),
    List.getD_eq_getElem _ _ h, List.getElem_map]

theorem run_avg_length {S : Type} (step : S → S) (shape : S → List ℚ) (N : ℚ) (m : ℕ)
    (hshape : ∀ s, (shape s).length = m) :
    ∀ (k : ℕ) (b : S) (acc : List ℚ), acc.length = m →
      (run_avg step shape N k b acc).length = m := by
  intro k
  induction k with
  | zero => intro b acc hacc; exact hacc
  | succ k ih =>
    intro b acc hacc
    show (run_avg step shape N k (step b) _).length = m
    exact ih _ _ (by rw [vec_add_length, vec_div_length, hacc, hshape]; omega)

theorem run_avg_getD {S : Type} (step : S → S) (shape : S → List ℚ) (N : ℚ) (m : ℕ)
    (hshape : ∀ s, (shape s).length = m) :
    ∀ (k : ℕ) (b : S) (acc : List ℚ), acc.length = m → ∀ j, j < m →
      (run_avg step shape N k b acc).getD j 0
        = acc.getD j 0
          + ((List.range k).map (fun i => (shape (step^[i + 1] b)).getD j 0 / N)).sum := by
  intro k
  induction k with
  | zero =>
    intro b acc hacc j hj
    simp [run_avg]
  | succ k ih =>
    intro b acc hacc j hj
    have hlen2 : (vec_add acc (vec_div (shape (step b)) N)).length = m := by
      rw [vec_add_length, vec_div_length, hacc, hshape]
      omega
    have h1 : (run_avg step shape N (k + 1) b acc).getD j 0
        = (run_avg step shape N k (step b) (vec_add acc (vec_div (shape (step b)) N))).getD j 0 := rfl
    rw [h1, ih _ _ hlen2 j hj]
    rw [vec_add_getD _ _ _ (by omega) (by rw [vec_div_length, hshape]; omega)]
    rw [vec_div_getD _ _ _ (by rw [hshape]; omega)]
    rw [List.range_succ_eq_map, List.map_cons, List.sum_cons, List.map_map]
    have hfun : ((fun i => (shape (step^[i + 1] b)).getD j 0 / N) ∘ Nat.succ)
        = (fun i => (shape (step^[i + 1] (step b))).getD j 0 / N) := by
      funext i
      show (shape (step^[Nat.succ i + 1] b)).getD j 0 / N = _
      rw [show Nat.succ i + 1 = (i + 1) + 1 from rfl, Function.iterate_succ_apply]
    rw [hfun]
    simp only [zero_add, Function.iterate_one]
    ring

theorem list_sum_div (l : List ℚ) (c : ℚ) : (l.map (fun x => x / c)).sum = l.sum / c := by
  induction l with
  | nil => simp
  | cons x xs ih => simp only [List.map_cons, List.sum_cons, ih, add_div]

theorem sfgk_simulate_length {S : Type} (step : S → S) (shape : S → List ℚ) (m N : ℕ)
    (hshape : ∀ s, (shape s).length = m) (b : S) :
    (sfgk_simulate step shape N b).length = m := by
  unfold sfgk_simulate
  exact run_avg_length step shape _ m hshape _ _ _ (by rw [vec_div_length, hshape])

theorem sum_shift (f : ℕ → ℚ) (K : ℕ) :
    ((List.range (K + 1)).map f).sum = f 0 + ((List.range K).map (fun i => f (i + 1))).sum := by
  rw [List.range_succ_eq_map, List.map_cons, List.sum_cons, List.map_map]
  rfl

theorem sfgk_simulate_getD {S : Type} (step : S → S) (shape : S → List ℚ) (m N : ℕ)
    (hshape : ∀ s, (shape s).length = m) (hN : 1 ≤ N) (b : S) (j : ℕ) (hj : j < m) :
    (sfgk_simulate step shape N b).getD j 0
      = ((List.range N).map (fun i => (shape (step^[1000 + i] b)).getD j 0)).sum / N := by
  obtain ⟨K, rfl⟩ : ∃ K, N = K + 1 := ⟨N - 1, by omega⟩
  unfold sfgk_simulate
  rw [show K + 1 - 1 = K from by omega]
  rw [run_avg_getD step shape _ m hshape K _ _ (by rw [vec_div_length, hshape]) j hj]
  rw [vec_div_getD _ _ _ (by rw [hshape]; omega)]
  rw [← list_sum_div, List.map_map, sum_shift]
  congr 1
  refine congrArg List.sum (List.map_congr_left ?_)
  intro i hi
  show (shape (step^[i + 1] (step^[1000] b))).getD j 0 / ((K + 1 : ℕ) : ℚ)
      = (shape (step^[1000 + (i + 1)] b)).getD j 0 / ((K + 1 : ℕ) : ℚ)
  rw [← Function.iterate_add_apply, show i + 1 + 1000 = 1000 + (i + 1) from by omega]

theorem zipWith_getD (f : ℚ → ℚ → ℚ) (xs ys : List ℚ) (j : ℕ)
    (hx : j < xs.length) (hy : j < ys.length) :
    (List.zipWith f xs ys).getD j 0 = f (xs.getD j 0) (ys.getD j 0) := by
  rw [List.getD_eq_getElem _ _ (by rw [List.length_zipWith]; omega),
    List.getD_eq_getElem _ _ hx, List.getD_eq_getElem _ _ hy, List.getElem_zipWith]

theorem getD_reverse (l : List ℚ) (e : ℕ) (h : e < l.length) :
    l.reverse.getD e 0 = l.getD (l.length - 1 - e) 0 := by
  rw [List.getD_eq_getElem _ _ (by rw [List.length_reverse]; omega),
    List.getD_eq_getElem _ _ (by omega), List.getElem_reverse]

theorem getD_take (l : List ℚ) (j e : ℕ) (h : e < j) (h2 : e < l.length) :
    (l.take j).getD e 0 = l.getD e 0 := by
  rw [List.getD_eq_getElem _ _ (by rw [List.length_take]; omega),
    List.getD_eq_getElem _ _ h2, List.getElem_take]

theorem getD_drop (l : List ℚ) (i e : ℕ) (h : i + e < l.length) :
    (l.drop i).getD e 0 = l.getD (i + e) 0 := by
  rw [List.getD_eq_getElem _ _ (by rw [List.length_drop]; omega),
    List.getD_eq_getElem _ _ h, List.getElem_drop]

theorem symmetrize_getD_zero (L : ℕ) (avg : List ℚ) :
    (symmetrize L avg).getD 0 0 = avg.getD L 0 := rfl

theorem symmetrize_getD (L d : ℕ) (avg : List ℚ) (hlen : avg.length = 2 * L + 1)
    (hd1 : 1 ≤ d) (hdL : d ≤ L) :
    (symmetrize L avg).getD d 0
      = (avg.getD (L - d) 0 + avg.getD (L + d) 0) * 0.5 := by
  obtain ⟨e, rfl⟩ : ∃ e, d = e + 1 := ⟨d - 1, by omega⟩
  unfold symmetrize
  rw [List.getD_cons_succ]
  rw [zipWith_getD _ _ _ _
    (by rw [List.length_reverse, List.length_take]; omega)
    (by rw [List.length_drop]; omega)]
  rw [getD_reverse _ _ (by rw [List.length_take]; omega)]
  rw [show (avg.take L).length - 1 - e = L - (e + 1) from by rw [List.length_take]; omega]
  rw [getD_take _ _ _ (by omega) (by omega)]
  rw [getD_drop _ _ _ (by omega)]
  rw [show L + 1 + e = L + (e + 1) from by omega]

theorem succ_iter (n m : ℕ) : Nat.succ^[n] m = m + n := by
  induction n generalizing m with
  | zero => rfl
  | succ n ih =>
    rw [Function.iterate_succ_apply, ih]
    omega

/-- C7 counterexample, to the claim as stated: with the event generator replaced by the
successor function on a counter and the shape by the singleton reading of the counter,
the driver with `max_events = 1` returns the shape sampled right after the 1000
burn-in events (value 1000), while the claim's procedure — 1000 burn-in events and then
`max_events` further events with a sample after each — yields 1001. -/
theorem c7_counterexample :
    (sfgk_simulate Nat.succ (fun n : ℕ => [(n : ℚ)]) 1 0).getD 0 0 = 1000
  ∧ sfgk_simulate_claim Nat.succ (fun n : ℕ => [(n : ℚ)]) 1 0 0 = 1001
  ∧ (1000 : ℚ) ≠ 1001 := by
  refine ⟨?_, ?_, by norm_num⟩
  · rw [sfgk_simulate_getD Nat.succ (fun n : ℕ => [(n : ℚ)]) 1 1 (fun s => rfl)
      (le_refl 1) 0 0 (by norm_num)]
    simp only [List.range_succ, List.range_zero, List.nil_append, List.map_cons,
      List.map_nil, List.sum_cons, List.sum_nil]
    show (((Nat.succ^[1000 + 0] 0 : ℕ) : ℚ) + 0) / 1 = 1000
    rw [succ_iter]
    norm_num
  · unfold sfgk_simulate_claim
    simp only [List.range_succ, List.range_zero, List.nil_append, List.map_cons,
      List.map_nil, List.sum_cons, List.sum_nil]
    show (((Nat.succ^[1000 + (0 + 1)] 0 : ℕ) : ℚ) + 0) / 1 = 1001
    rw [succ_iter]
    norm_num

/-- C7 as amended: after the 1000 burn-in events the driver samples the shape once
immediately, then fires `max_events - 1` further events sampling after each, so the
result is the mean of the `max_events` samples taken after events
1000 .. 1000 + max_events - 1; and the CST driver returns the level-0 entry of the
averaged shape unmixed and, at each distance `1 ≤ d ≤ L`, the mean of the bid-side and
ask-side averaged entries at distance `d`. -/
theorem c7_simulate_avg {S : Type} (step : S → S) (shape : S → List ℚ) (m N L d : ℕ)
    (b : S) (hshape : ∀ s, (shape s).length = m) (hN : 1 ≤ N) :
    (∀ j, j < m →
      (sfgk_simulate step shape N b).getD j 0
        = ((List.range N).map (fun i => (shape (step^[1000 + i] b)).getD j 0)).sum / N)
  ∧ (m = 2 * L + 1 →
      (cst_simulate step shape N L b).getD 0 0 = (sfgk_simulate step shape N b).getD L 0)
  ∧ (m = 2 * L + 1 → 1 ≤ d → d ≤ L →
      (cst_simulate step shape N L b).getD d 0
        = ((sfgk_simulate step shape N b).getD (L - d) 0
            + (sfgk_simulate step shape N b).getD (L + d) 0) * 0.5) := by
  refine ⟨?_, ?_, ?_⟩
  · intro j hj
    exact sfgk_simulate_getD step shape m N hshape hN b j hj
  · intro hm
    exact symmetrize_getD_zero L _
  · intro hm hd1 hdL
    exact symmetrize_getD L d _
      (by rw [sfgk_simulate_length step shape m N hshape b]; omega) hd1 hdL

/-- Witness for C7 at a concrete counter system with a three-entry shape, one recorded
event, and window 1. -/
theorem c7_witness :
    ((sfgk_simulate Nat.succ (fun n : ℕ => [(n : ℚ), n + 1, n + 2]) 1 0).getD 0 0
      = ((List.range 1).map
          (fun i => ((fun n : ℕ => [(n : ℚ), n + 1, n + 2])
            (Nat.succ^[1000 + i] 0)).getD 0 0)).sum / 1)
  ∧ (cst_simulate Nat.succ (fun n : ℕ => [(n : ℚ), n + 1, n + 2]) 1 1 0).getD 0 0
      = (sfgk_simulate Nat.succ (fun n : ℕ => [(n : ℚ), n + 1, n + 2]) 1 0).getD 1 0
  ∧ (cst_simulate Nat.succ (fun n : ℕ => [(n : ℚ), n + 1, n + 2]) 1 1 0).getD 1 0
      = ((sfgk_simulate Nat.succ (fun n : ℕ => [(n : ℚ), n + 1, n + 2]) 1 0).getD 0 0
          + (sfgk_simulate Nat.succ (fun n : ℕ => [(n : ℚ), n + 1, n + 2]) 1 0).getD 2 0)
          * 0.5 :=
  ⟨(c7_simulate_avg Nat.succ (fun n : ℕ => [(n : ℚ), n + 1, n + 2]) 3 1 1 1 0 (fun s => rfl) (by norm_num)).1 0 (by norm_num),
   (c7_simulate_avg Nat.succ (fun n : ℕ => [(n : ℚ), n + 1, n + 2]) 3 1 1 1 0 (fun s => rfl) (by norm_num)).2.1 rfl,
   (c7_simulate_avg Nat.succ (fun n : ℕ => [(n : ℚ), n + 1, n + 2]) 3 1 1 1 0 (fun s => rfl) (by norm_num)).2.2 rfl
     (by norm_num) (by norm_num)⟩

theorem no_cross_init : no_cross init_book := by
  intro tb ta htb hta hbpos hapos
  rw [init_book_levels, mem_ticks] at htb hta
  by_contra hlt
  push_neg at hlt
  by_cases h0 : 0 ≤ tb
  · have := init_bid_zero_of_nonneg tb h0 htb.2
    omega
  · have hta0 : ta ≤ 0 := by omega
    have := init_ask_zero_of_nonpos ta hta.1 hta0
    omega

theorem no_cross_mono (b b2 : Book) (hlv : b2.levels = b.levels)
    (hbid : ∀ t, 0 < b2.bid_size t → 0 < b.bid_size t)
    (hask : ∀ t, 0 < b2.ask_size t → 0 < b.ask_size t)
    (h : no_cross b) : no_cross b2 := by
  intro tb ta htb hta hb ha
  rw [hlv] at htb hta
  exact h tb ta htb hta (hbid tb hb) (hask ta ha)

theorem best_ask_min (b : Book) (a : ℤ) (ha : best_ask b = some a) :
    ∀ t ∈ ticks b.levels, 0 < b.ask_size t → a ≤ t := by
  intro t ht hpos
  unfold best_ask at ha
  exact find?_min_le _ _ (ticks_pairwise b.levels) _ ha t ht (by simpa using hpos)

theorem best_bid_max (b : Book) (p : ℤ) (hp : best_bid b = some p) :
    ∀ t ∈ ticks b.levels, 0 < b.bid_size t → t ≤ p := by
  intro t ht hpos
  unfold best_bid at hp
  exact find?_max_ge _ _ (ticks_reverse_pairwise b.levels) _ hp t
    (List.mem_reverse.mpr ht) (by simpa using hpos)

theorem no_cross_step (L : ℕ) (b b2 : Book) (hstep : Step L b b2) (hnc : no_cross b) :
    no_cross b2 := by
  cases hstep with
  | market_buy_step ha hb h =>
    rcases Option.map_eq_some'.mp h with ⟨p, hp, rfl⟩
    refine no_cross_mono b _ rfl (fun t ht => ht) ?_ hnc
    intro t ht
    dsimp only at ht
    by_cases htp : t = p
    · subst htp
      rw [if_pos rfl] at ht
      omega
    · rwa [if_neg htp] at ht
  | market_sell_step ha hb h =>
    rcases Option.map_eq_some'.mp h with ⟨p, hp, rfl⟩
    refine no_cross_mono b _ rfl ?_ (fun t ht => ht) hnc
    intro t ht
    dsimp only at ht
    by_cases htp : t = p
    · subst htp
      rw [if_pos rfl] at ht
      omega
    · rwa [if_neg htp] at ht
  | limit_buy_step a q ha hb hq1 hqL h =>
    unfold limit_buy at h
    split at h
    case isFalse => exact Option.noConfusion h
    case isTrue hin =>
    injection h with h2
    subst h2
    intro tb ta htb hta hbpos hapos
    dsimp only at htb hta hbpos hapos
    by_cases htb2 : tb = a - q
    · subst htb2
      have hmin : a ≤ ta := best_ask_min b a ha ta hta hapos
      omega
    · rw [if_neg htb2] at hbpos
      exact hnc tb ta htb hta hbpos hapos
  | limit_sell_step p q hp ha hq1 hqL h =>
    unfold limit_sell at h
    split at h
    case isFalse => exact Option.noConfusion h
    case isTrue hin =>
    injection h with h2
    subst h2
    intro tb ta htb hta hbpos hapos
    dsimp only at htb hta hbpos hapos
    by_cases hta2 : ta = p + q
    · subst hta2
      have hmax : tb ≤ p := best_bid_max b p hp tb htb hbpos
      omega
    · rw [if_neg hta2] at hapos
      exact hnc tb ta htb hta hbpos hapos
  | cancel_buy_step a pc ha hb hw hpos h =>
    unfold cancel_buy_at at h
    split at h
    case isFalse => exact Option.noConfusion h
    case isTrue hin =>
    injection h with h2
    subst h2
    refine no_cross_mono b _ rfl ?_ (fun t ht => ht) hnc
    intro t ht
    dsimp only at ht
    by_cases htp : t = pc
    · subst htp
      rw [if_pos rfl] at ht
      omega
    · rwa [if_neg htp] at ht
  | cancel_sell_step p pc hp ha hw hpos h =>
    subst h
    refine no_cross_mono b _ rfl (fun t ht => ht) ?_ hnc
    intro t ht
    dsimp only at ht
    by_cases htp : t = pc
    · subst htp
      rw [if_pos rfl] at ht
      omega
    · rwa [if_neg htp] at ht

theorem no_cross_reachable (L : ℕ) (b : Book) (h : Reachable L b) : no_cross b := by
  induction h with
  | refl => exact no_cross_init
  | tail hsteps hstep ih => exact no_cross_step L _ _ hstep ih

/-- C9: in every state reachable from the freshly constructed book by the event models'
operations, whenever both sides are non-empty the spread `best_ask() - best_bid()` is
non-negative (the book never crosses).  The transition relation over-approximates the
models (it allows every operation either model can perform), so the invariant holds a
fortiori on the states the reference run could reach. -/
theorem c9_spread_nonneg (L : ℕ) (b : Book) (h : Reachable L b) (s : ℤ)
    (hs : spread b = some s) : 0 ≤ s := by
  have hnc := no_cross_reachable L b h
  unfold spread at hs
  rcases Option.bind_eq_some.mp hs with ⟨a, ha, hmap⟩
  rcases Option.map_eq_some'.mp hmap with ⟨p, hp, hs2⟩
  subst hs2
  have hamem : a ∈ ticks b.levels := by
    unfold best_ask at ha
    exact List.mem_of_find?_eq_some ha
  have hapos : 0 < b.ask_size a := by
    unfold best_ask at ha
    have hq := List.find?_some ha
    simpa using hq
  have hpmem : p ∈ ticks b.levels := by
    unfold best_bid at hp
    exact List.mem_reverse.mp (List.mem_of_find?_eq_some hp)
  have hppos : 0 < b.bid_size p := by
    unfold best_bid at hp
    have hq := List.find?_some hp
    simpa using hq
  have hlt := hnc p a hpmem hamem hppos hapos
  omega

/-- Witness for C9 at the freshly constructed book itself (zero steps, window 20):
its spread is 2. -/
theorem c9_witness : ∃ s, spread init_book = some s ∧ 0 ≤ s :=
  ⟨2, spread_init, c9_spread_nonneg 20 init_book Relation.ReflTransGen.refl 2 spread_init⟩

end Lob
